import Mathlib

/-!  Verification of the motion choreography engine of `AllServer.py`
(class `ServoController`).  The servo registry, the position tracker, the
single-servo write `move_servo`, the interpolation primitive `smooth_move`,
the custom-routine interpreter `custom_dance`, the gather-based motion
groups of the built-in routines, and the `is_dancing` exclusivity flag are
embedded as executable Lean definitions; angles are modelled as exact
rationals (Python floats idealised), and the hardware write
`self.kit.servo[ch].angle = angle` is abstracted as a boolean acceptance
oracle `driver : channel -> angle -> Bool` (`true` = the assignment
succeeded, `false` = it raised and the `except` branch of `move_servo`
ran).  Every driver call that is attempted is recorded in `calls`. -/

/-- One entry of the `SERVO_RANGES` dict: safety bounds, default pose and
display name of a servo channel. -/
structure ChannelSpec where
  minAngle : ℤ
  maxAngle : ℤ
  defaultAngle : ℤ
  name : String
deriving DecidableEq

/-- The `SERVO_RANGES` dict of `ServoController.__init__` (lines 43-51 /
59-67 of `AllServer.py`): channels 0-6, `none` for any other key. -/
def SERVO_RANGES : ℕ → Option ChannelSpec := fun ch =>
  match ch with
  | 0 => some ⟨40, 140, 90, "Head Rotation"⟩
  | 1 => some ⟨90, 140, 120, "Neck Top"⟩
  | 2 => some ⟨50, 130, 90, "Neck Bottom"⟩
  | 3 => some ⟨0, 180, 90, "Eye Right"⟩
  | 4 => some ⟨40, 170, 90, "Eye Left"⟩
  | 5 => some ⟨0, 180, 30, "Arm Left"⟩
  | 6 => some ⟨0, 180, 150, "Arm Right"⟩
  | _ => none

/-- Python `int(x)`: truncation toward zero (equals the floor for the
nonnegative angles that actually occur). -/
def pyInt (q : ℚ) : ℤ := if q < 0 then -(Int.floor (-q)) else Int.floor q

/-- Result of `move_servo`, structured form of its `(bool, message)`
return: success, `"Invalid servo channel"`, `"Angle out of range min-max"`
(carrying the range bounds that the message interpolates), or the caught
driver exception. -/
inductive MoveResult where
  | ok : MoveResult
  | invalidChannel : MoveResult
  | outOfRange (lo hi : ℤ) : MoveResult
  | driverError : MoveResult
deriving DecidableEq

/-- Engine state: `current_positions` (total over channel ids; only
registry channels are ever read) and the log of attempted driver calls. -/
structure EngineSt where
  positions : ℕ → ℚ
  calls : List (ℕ × ℚ)

/-- State after `ServoController.__init__` / `initialize_servos`:
every registry channel tracked at its `default`, no calls logged yet. -/
def initSt : EngineSt where
  positions := fun ch =>
    match SERVO_RANGES ch with
    | some cfg => (cfg.defaultAngle : ℚ)
    | none => 0
  calls := []

/-- A driver that accepts every write (the happy hardware path). -/
def drvOk : ℕ → ℚ → Bool := fun _ _ => true

/-- A driver that rejects every write (every assignment raises). -/
def drvFail : ℕ → ℚ → Bool := fun _ _ => false

/-- `ServoController.move_servo` (lines 88-110): validate the channel,
validate the angle against the channel's range, attempt the hardware
write, and update `current_positions` only when the write succeeded. -/
def move_servo (driver : ℕ → ℚ → Bool) (st : EngineSt) (servo_channel : ℕ)
    (angle : ℚ) : MoveResult × EngineSt :=
  match SERVO_RANGES servo_channel with
  | none => (.invalidChannel, st)
  | some servo_range =>
    if (servo_range.minAngle : ℚ) ≤ angle ∧ angle ≤ (servo_range.maxAngle : ℚ) then
      let st1 : EngineSt := { st with calls := st.calls ++ [(servo_channel, angle)] }
      if driver servo_channel angle then
        (.ok, { st1 with positions := Function.update st1.positions servo_channel angle })
      else
        (.driverError, st1)
    else
      (.outOfRange servo_range.minAngle servo_range.maxAngle, st)

/-- `ServoController.smooth_move` (lines 112-129): clamp the target into
the channel's range, read the tracked position, and command
`int(current + (target-current)/steps * (i+1))` for `i in range(steps)`
through `move_servo`, ignoring each step's result; returns `False` only
for an unknown channel.  The inter-step `asyncio.sleep(duration/steps)`
has no effect on this state and is not modelled. -/
def smooth_move (driver : ℕ → ℚ → Bool) (st : EngineSt) (servo_channel : ℕ)
    (target_angle : ℚ) (duration : ℚ) (steps : ℕ := 20) : Bool × EngineSt :=
  match SERVO_RANGES servo_channel with
  | none => (false, st)
  | some servo_range =>
    let tgt : ℚ := max (servo_range.minAngle : ℚ) (min (servo_range.maxAngle : ℚ) target_angle)
    let current_angle : ℚ := st.positions servo_channel
    let angle_step : ℚ := (tgt - current_angle) / (steps : ℚ)
    let stF : EngineSt := (List.range steps).foldl
      (fun s (i : ℕ) =>
        (move_servo driver s servo_channel
          ((pyInt (current_angle + angle_step * ((i : ℚ) + 1)) : ℤ) : ℚ)).2) st
    (true, stF)

/-- The angle commanded at step `i` of `smooth_move` (the loop's
`int(new_angle)`), as a function of the state the ramp started from. -/
def stepCommand (st : EngineSt) (servo_channel : ℕ) (r : ChannelSpec)
    (target_angle : ℚ) (steps : ℕ) (i : ℕ) : ℚ :=
  let tgt : ℚ := max (r.minAngle : ℚ) (min (r.maxAngle : ℚ) target_angle)
  let current_angle : ℚ := st.positions servo_channel
  ((pyInt (current_angle + (tgt - current_angle) / (steps : ℚ) * ((i : ℚ) + 1)) : ℤ) : ℚ)

lemma ranges_wf (ch : ℕ) (r : ChannelSpec) (h : SERVO_RANGES ch = some r) :
    0 ≤ r.minAngle ∧ r.minAngle ≤ r.defaultAngle ∧ r.defaultAngle ≤ r.maxAngle := by
  rcases ch with _ | _ | _ | _ | _ | _ | _ | n <;>
    simp only [SERVO_RANGES] at h
  · cases h; exact ⟨by norm_num, by norm_num, by norm_num⟩
  · cases h; exact ⟨by norm_num, by norm_num, by norm_num⟩
  · cases h; exact ⟨by norm_num, by norm_num, by norm_num⟩
  · cases h; exact ⟨by norm_num, by norm_num, by norm_num⟩
  · cases h; exact ⟨by norm_num, by norm_num, by norm_num⟩
  · cases h; exact ⟨by norm_num, by norm_num, by norm_num⟩
  · cases h; exact ⟨by norm_num, by norm_num, by norm_num⟩
  · exact Option.noConfusion h

lemma le_pyInt_of_le (a : ℤ) (q : ℚ) (h : (a : ℚ) ≤ q) : a ≤ pyInt q := by
  unfold pyInt
  split
  · have h1 : (-q : ℚ) ≤ ((-a : ℤ) : ℚ) := by push_cast; linarith
    have h2 := Int.floor_le_floor h1
    rw [Int.floor_intCast] at h2
    omega
  · exact Int.le_floor.mpr h

lemma pyInt_le_of_le (q : ℚ) (b : ℤ) (h : q ≤ (b : ℚ)) : pyInt q ≤ b := by
  unfold pyInt
  split
  · rename_i hq
    have h1 : ((-b : ℤ) : ℚ) ≤ -q := by push_cast; linarith
    have h2 := Int.le_floor.mpr h1
    omega
  · have h1 : ((Int.floor q : ℤ) : ℚ) ≤ (b : ℚ) := le_trans (Int.floor_le q) h
    exact_mod_cast h1

lemma clamp_mem (lo hi t : ℚ) (h : lo ≤ hi) :
    lo ≤ max lo (min hi t) ∧ max lo (min hi t) ≤ hi :=
  ⟨le_max_left _ _, max_le h (min_le_left _ _)⟩

lemma convex_between (lo hi c t k : ℚ) (hc1 : lo ≤ c) (hc2 : c ≤ hi)
    (ht1 : lo ≤ t) (ht2 : t ≤ hi) (hk0 : 0 ≤ k) (hk1 : k ≤ 1) :
    lo ≤ c + (t - c) * k ∧ c + (t - c) * k ≤ hi := by
  constructor
  · nlinarith [mul_nonneg (sub_nonneg.mpr hc1) (sub_nonneg.mpr hk1),
      mul_nonneg (sub_nonneg.mpr ht1) hk0]
  · nlinarith [mul_nonneg (sub_nonneg.mpr hc2) (sub_nonneg.mpr hk1),
      mul_nonneg (sub_nonneg.mpr ht2) hk0]

lemma stepCommand_mem (st : EngineSt) (ch : ℕ) (r : ChannelSpec) (target : ℚ)
    (steps i : ℕ) (hwf : (r.minAngle : ℚ) ≤ (r.maxAngle : ℚ))
    (hc1 : (r.minAngle : ℚ) ≤ st.positions ch) (hc2 : st.positions ch ≤ (r.maxAngle : ℚ))
    (hi : i < steps) :
    (r.minAngle : ℚ) ≤ stepCommand st ch r target steps i ∧
      stepCommand st ch r target steps i ≤ (r.maxAngle : ℚ) := by
  have hn : (0 : ℚ) < (steps : ℚ) := by
    exact_mod_cast Nat.zero_lt_of_lt hi
  have hq : st.positions ch +
      (max (r.minAngle : ℚ) (min (r.maxAngle : ℚ) target) - st.positions ch) / (steps : ℚ) *
        ((i : ℚ) + 1) =
      st.positions ch +
      (max (r.minAngle : ℚ) (min (r.maxAngle : ℚ) target) - st.positions ch) *
        (((i : ℚ) + 1) / (steps : ℚ)) := by ring
  have hk0 : (0 : ℚ) ≤ ((i : ℚ) + 1) / (steps : ℚ) := by positivity
  have hk1 : ((i : ℚ) + 1) / (steps : ℚ) ≤ 1 := by
    rw [div_le_one hn]
    have : (i : ℚ) + 1 ≤ (steps : ℚ) := by exact_mod_cast hi
    linarith
  have hcl := clamp_mem (r.minAngle : ℚ) (r.maxAngle : ℚ) target hwf
  have hb := convex_between (r.minAngle : ℚ) (r.maxAngle : ℚ) (st.positions ch)
    (max (r.minAngle : ℚ) (min (r.maxAngle : ℚ) target))
    (((i : ℚ) + 1) / (steps : ℚ)) hc1 hc2 hcl.1 hcl.2 hk0 hk1
  simp only [stepCommand]
  rw [hq]
  constructor
  · exact_mod_cast le_pyInt_of_le r.minAngle _ hb.1
  · exact_mod_cast pyInt_le_of_le _ r.maxAngle hb.2

lemma move_servo_invalid (driver : ℕ → ℚ → Bool) (st : EngineSt) (ch : ℕ) (a : ℚ)
    (h : SERVO_RANGES ch = none) : move_servo driver st ch a = (.invalidChannel, st) := by
  simp [move_servo, h]

lemma move_servo_reject (driver : ℕ → ℚ → Bool) (st : EngineSt) (ch : ℕ) (a : ℚ)
    (r : ChannelSpec) (h : SERVO_RANGES ch = some r)
    (hout : ¬((r.minAngle : ℚ) ≤ a ∧ a ≤ (r.maxAngle : ℚ))) :
    move_servo driver st ch a = (.outOfRange r.minAngle r.maxAngle, st) := by
  simp [move_servo, h, hout]

lemma move_servo_attempt (driver : ℕ → ℚ → Bool) (st : EngineSt) (ch : ℕ) (a : ℚ)
    (r : ChannelSpec) (h : SERVO_RANGES ch = some r)
    (h1 : (r.minAngle : ℚ) ≤ a) (h2 : a ≤ (r.maxAngle : ℚ)) :
    (move_servo driver st ch a).2.calls = st.calls ++ [(ch, a)] ∧
    ((driver ch a = true ∧
        (move_servo driver st ch a).2.positions = Function.update st.positions ch a) ∨
      (driver ch a = false ∧ (move_servo driver st ch a).2.positions = st.positions)) := by
  cases hd : driver ch a <;> simp [move_servo, h, h1, h2, hd]

lemma smooth_move_eq (driver : ℕ → ℚ → Bool) (st : EngineSt) (ch : ℕ)
    (r : ChannelSpec) (target dur : ℚ) (steps : ℕ) (h : SERVO_RANGES ch = some r) :
    smooth_move driver st ch target dur steps =
      (true, (List.range steps).foldl
        (fun s i => (move_servo driver s ch (stepCommand st ch r target steps i)).2) st) := by
  unfold smooth_move
  rw [h]
  rfl

lemma smooth_move_none (driver : ℕ → ℚ → Bool) (st : EngineSt) (ch : ℕ)
    (target dur : ℚ) (steps : ℕ) (h : SERVO_RANGES ch = none) :
    smooth_move driver st ch target dur steps = (false, st) := by
  unfold smooth_move
  rw [h]

lemma smooth_move_eq_cmd (driver : ℕ → ℚ → Bool) (st : EngineSt) (ch : ℕ)
    (r : ChannelSpec) (target dur : ℚ) (steps : ℕ) (h : SERVO_RANGES ch = some r)
    (cmd : ℕ → ℚ) (hcmd : ∀ i, cmd i = stepCommand st ch r target steps i) :
    smooth_move driver st ch target dur steps =
      (true, (List.range steps).foldl
        (fun s i => (move_servo driver s ch (cmd i)).2) st) := by
  rw [smooth_move_eq driver st ch r target dur steps h]
  have hf : (fun s i => (move_servo driver s ch (stepCommand st ch r target steps i)).2) =
      (fun s i => (move_servo driver s ch (cmd i)).2) := by
    funext s i
    rw [hcmd]
  rw [hf]

lemma foldRange_calls_len (driver : ℕ → ℚ → Bool) (ch : ℕ) (r : ChannelSpec)
    (h : SERVO_RANGES ch = some r) (cmd : ℕ → ℚ) (n : ℕ)
    (hin : ∀ i, i < n → (r.minAngle : ℚ) ≤ cmd i ∧ cmd i ≤ (r.maxAngle : ℚ))
    (st : EngineSt) :
    ((List.range n).foldl (fun s i => (move_servo driver s ch (cmd i)).2) st).calls.length =
      st.calls.length + n := by
  induction n with
  | zero => simp
  | succ m ih =>
    rw [List.range_succ, List.foldl_append, List.foldl_cons, List.foldl_nil]
    have hm := hin m (by omega)
    have ha := move_servo_attempt driver
      ((List.range m).foldl (fun s i => (move_servo driver s ch (cmd i)).2) st) ch (cmd m) r h
      hm.1 hm.2
    rw [ha.1, List.length_append, ih (fun i hi => hin i (by omega))]
    simp
    omega

lemma foldRange_positions (driver : ℕ → ℚ → Bool) (ch : ℕ) (r : ChannelSpec)
    (h : SERVO_RANGES ch = some r) (cmd : ℕ → ℚ) (n : ℕ)
    (hin : ∀ i, i < n → (r.minAngle : ℚ) ≤ cmd i ∧ cmd i ≤ (r.maxAngle : ℚ))
    (st : EngineSt) :
    (((List.range n).foldl (fun s i => (move_servo driver s ch (cmd i)).2) st).positions ch =
        st.positions ch ∧ ∀ i, i < n → driver ch (cmd i) = false) ∨
    (∃ i, i < n ∧ driver ch (cmd i) = true ∧
      ((List.range n).foldl (fun s i => (move_servo driver s ch (cmd i)).2) st).positions ch =
        cmd i ∧ ∀ j, i < j → j < n → driver ch (cmd j) = false) := by
  induction n with
  | zero => exact Or.inl ⟨by simp, fun i hi => absurd hi (by omega)⟩
  | succ m ih =>
    rw [List.range_succ, List.foldl_append, List.foldl_cons, List.foldl_nil]
    have hm := hin m (by omega)
    have ha := move_servo_attempt driver
      ((List.range m).foldl (fun s i => (move_servo driver s ch (cmd i)).2) st) ch (cmd m) r h
      hm.1 hm.2
    rcases ha.2 with ⟨hd, hpos⟩ | ⟨hd, hpos⟩
    · refine Or.inr ⟨m, by omega, hd, ?_, fun j hj1 hj2 => absurd (And.intro hj1 hj2) (by omega)⟩
      rw [hpos, Function.update_same]
    · rcases ih (fun i hi => hin i (by omega)) with ⟨he, hall⟩ | ⟨i, him, hacc, hpi, hmax⟩
      · refine Or.inl ⟨by rw [hpos, he], fun i hi => ?_⟩
        rcases Nat.lt_succ_iff_lt_or_eq.mp hi with hlt | heq
        · exact hall i hlt
        · rw [heq]; exact hd
      · refine Or.inr ⟨i, by omega, hacc, by rw [hpos, hpi], fun j hj1 hj2 => ?_⟩
        rcases Nat.lt_succ_iff_lt_or_eq.mp hj2 with hlt | heq
        · exact hmax j hj1 hlt
        · rw [heq]; exact hd

lemma foldRange_calls_mem (driver : ℕ → ℚ → Bool) (ch : ℕ) (r : ChannelSpec)
    (h : SERVO_RANGES ch = some r) (cmd : ℕ → ℚ) (n : ℕ)
    (hin : ∀ i, i < n → (r.minAngle : ℚ) ≤ cmd i ∧ cmd i ≤ (r.maxAngle : ℚ))
    (st : EngineSt) :
    ∀ c ∈ ((List.range n).foldl (fun s i => (move_servo driver s ch (cmd i)).2) st).calls,
      c ∈ st.calls ∨ (c.1 = ch ∧ (r.minAngle : ℚ) ≤ c.2 ∧ c.2 ≤ (r.maxAngle : ℚ)) := by
  induction n with
  | zero => intro c hc; exact Or.inl (by simpa using hc)
  | succ m ih =>
    intro c hc
    rw [List.range_succ, List.foldl_append, List.foldl_cons, List.foldl_nil] at hc
    have hm := hin m (by omega)
    have ha := move_servo_attempt driver
      ((List.range m).foldl (fun s i => (move_servo driver s ch (cmd i)).2) st) ch (cmd m) r h
      hm.1 hm.2
    rw [ha.1, List.mem_append] at hc
    rcases hc with hc | hc
    · exact ih (fun i hi => hin i (by omega)) c hc
    · simp only [List.mem_singleton] at hc
      subst hc
      exact Or.inr ⟨rfl, hm.1, hm.2⟩

lemma stepCommand_last (st : EngineSt) (ch : ℕ) (r : ChannelSpec) (target : ℚ) (m : ℕ) :
    stepCommand st ch r target (m + 1) m =
      ((pyInt (max (r.minAngle : ℚ) (min (r.maxAngle : ℚ) target)) : ℤ) : ℚ) := by
  simp only [stepCommand]
  have hne : (m : ℚ) + 1 ≠ 0 := by positivity
  have harg : st.positions ch +
      (max (r.minAngle : ℚ) (min (r.maxAngle : ℚ) target) - st.positions ch) /
        (((m + 1 : ℕ)) : ℚ) * ((m : ℚ) + 1) =
      max (r.minAngle : ℚ) (min (r.maxAngle : ℚ) target) := by
    push_cast
    field_simp
  rw [harg]

lemma ranges_wf_q (ch : ℕ) (r : ChannelSpec) (h : SERVO_RANGES ch = some r) :
    (r.minAngle : ℚ) ≤ (r.maxAngle : ℚ) := by
  have hw := ranges_wf ch r h
  exact_mod_cast le_trans hw.2.1 hw.2.2

/-- C2: for a registry channel, when the interpolation `smooth_move` runs
all of its steps and the driver accepts every write, the tracked position
afterwards is exactly the target clamped into the channel's range,
truncated to an integer degree by the final step's `int(...)`. -/
theorem C2_interpolate_final_position (st : EngineSt) (ch : ℕ) (r : ChannelSpec)
    (target dur : ℚ) (steps : ℕ) (hch : SERVO_RANGES ch = some r) (hsteps : 1 ≤ steps) :
    (smooth_move drvOk st ch target dur steps).1 = true ∧
    (smooth_move drvOk st ch target dur steps).2.positions ch =
      ((pyInt (max (r.minAngle : ℚ) (min (r.maxAngle : ℚ) target)) : ℤ) : ℚ) := by
  rw [smooth_move_eq drvOk st ch r target dur steps hch]
  refine ⟨rfl, ?_⟩
  obtain ⟨m, rfl⟩ : ∃ m, steps = m + 1 := ⟨steps - 1, by omega⟩
  rw [List.range_succ, List.foldl_append, List.foldl_cons, List.foldl_nil]
  have hwf := ranges_wf_q ch r hch
  have hcl := clamp_mem (r.minAngle : ℚ) (r.maxAngle : ℚ) target hwf
  have hlast := stepCommand_last st ch r target m
  have h1 : (r.minAngle : ℚ) ≤ stepCommand st ch r target (m + 1) m := by
    rw [hlast]
    exact_mod_cast le_pyInt_of_le r.minAngle _ hcl.1
  have h2 : stepCommand st ch r target (m + 1) m ≤ (r.maxAngle : ℚ) := by
    rw [hlast]
    exact_mod_cast pyInt_le_of_le _ r.maxAngle hcl.2
  have ha := move_servo_attempt drvOk
    ((List.range m).foldl
      (fun s i => (move_servo drvOk s ch (stepCommand st ch r target (m + 1) i)).2) st)
    ch (stepCommand st ch r target (m + 1) m) r hch h1 h2
  rcases ha.2 with ⟨_, hpos⟩ | ⟨hd, _⟩
  · rw [hpos, Function.update_same, hlast]
  · exact absurd hd (by simp [drvOk])

/-- C2 witness: the end-to-end scenario of the spec, channel 6 (range 0-180,
default 150), interpolate to 90 in 10 steps: the ramp reports success and the
tracked position ends exactly at 90. -/
theorem C2_witness :
    (smooth_move drvOk initSt 6 90 (4/5) 10).1 = true ∧
    (smooth_move drvOk initSt 6 90 (4/5) 10).2.positions 6 = 90 := by
  have h := C2_interpolate_final_position initSt 6 ⟨0, 180, 150, "Arm Right"⟩ 90 (4/5) 10
    rfl (by norm_num)
  refine ⟨h.1, ?_⟩
  rw [h.2]
  norm_num [pyInt]

/-- C3: for a registry channel whose tracked position is within its range,
`smooth_move` clamps the target before the loop, every commanded step angle
of the ramp lies within the channel's range, every driver call it issues is
for this channel with an in-range angle, and it returns success (it has no
out-of-range error path). -/
theorem C3_interpolate_clamps_and_stays_in_range (driver : ℕ → ℚ → Bool) (st : EngineSt)
    (ch : ℕ) (r : ChannelSpec) (target dur : ℚ) (steps : ℕ)
    (hch : SERVO_RANGES ch = some r)
    (hlo : (r.minAngle : ℚ) ≤ st.positions ch) (hhi : st.positions ch ≤ (r.maxAngle : ℚ)) :
    (smooth_move driver st ch target dur steps).1 = true ∧
    (∀ i, i < steps → (r.minAngle : ℚ) ≤ stepCommand st ch r target steps i ∧
        stepCommand st ch r target steps i ≤ (r.maxAngle : ℚ)) ∧
    (∀ c ∈ (smooth_move driver st ch target dur steps).2.calls,
        c ∈ st.calls ∨ (c.1 = ch ∧ (r.minAngle : ℚ) ≤ c.2 ∧ c.2 ≤ (r.maxAngle : ℚ))) := by
  have hwf := ranges_wf_q ch r hch
  have hin : ∀ i, i < steps → (r.minAngle : ℚ) ≤ stepCommand st ch r target steps i ∧
      stepCommand st ch r target steps i ≤ (r.maxAngle : ℚ) :=
    fun i hi => stepCommand_mem st ch r target steps i hwf hlo hhi hi
  rw [smooth_move_eq driver st ch r target dur steps hch]
  exact ⟨rfl, hin, foldRange_calls_mem driver ch r hch _ steps hin st⟩

/-- C3 witness: channel 6 starts at its default 150 and is asked for 200,
outside the range 0-180: no error, every commanded angle and every issued
driver call stays within 0-180. -/
theorem C3_witness :
    (smooth_move drvOk initSt 6 200 1 20).1 = true ∧
    (∀ i, i < 20 →
        ((0 : ℤ) : ℚ) ≤ stepCommand initSt 6 ⟨0, 180, 150, "Arm Right"⟩ 200 20 i ∧
        stepCommand initSt 6 ⟨0, 180, 150, "Arm Right"⟩ 200 20 i ≤ ((180 : ℤ) : ℚ)) ∧
    (∀ c ∈ (smooth_move drvOk initSt 6 200 1 20).2.calls,
        c ∈ initSt.calls ∨ (c.1 = 6 ∧ ((0 : ℤ) : ℚ) ≤ c.2 ∧ c.2 ≤ ((180 : ℤ) : ℚ))) := by
  refine C3_interpolate_clamps_and_stays_in_range drvOk initSt 6 ⟨0, 180, 150, "Arm Right"⟩
    200 1 20 rfl ?_ ?_
  · show ((0 : ℤ) : ℚ) ≤ ((150 : ℤ) : ℚ)
    norm_num
  · show ((150 : ℤ) : ℚ) ≤ ((180 : ℤ) : ℚ)
    norm_num

/-- C7: with an arbitrary acceptance oracle for the hardware writes, a
rejected write at any step does not abort the ramp: `smooth_move` still
returns success and attempts all `steps` driver calls, and the tracked
position afterwards is either untouched (every write rejected) or equals
the commanded angle of the last accepted step, with every later step's
write rejected. -/
theorem C7_driver_failure_continues (driver : ℕ → ℚ → Bool) (st : EngineSt) (ch : ℕ)
    (r : ChannelSpec) (target dur : ℚ) (steps : ℕ) (hch : SERVO_RANGES ch = some r)
    (hlo : (r.minAngle : ℚ) ≤ st.positions ch) (hhi : st.positions ch ≤ (r.maxAngle : ℚ)) :
    (smooth_move driver st ch target dur steps).1 = true ∧
    (smooth_move driver st ch target dur steps).2.calls.length = st.calls.length + steps ∧
    (((smooth_move driver st ch target dur steps).2.positions ch = st.positions ch ∧
        ∀ i, i < steps → driver ch (stepCommand st ch r target steps i) = false) ∨
      (∃ i, i < steps ∧ driver ch (stepCommand st ch r target steps i) = true ∧
        (smooth_move driver st ch target dur steps).2.positions ch =
          stepCommand st ch r target steps i ∧
        ∀ j, i < j → j < steps → driver ch (stepCommand st ch r target steps j) = false)) := by
  have hwf := ranges_wf_q ch r hch
  have hin : ∀ i, i < steps → (r.minAngle : ℚ) ≤ stepCommand st ch r target steps i ∧
      stepCommand st ch r target steps i ≤ (r.maxAngle : ℚ) :=
    fun i hi => stepCommand_mem st ch r target steps i hwf hlo hhi hi
  rw [smooth_move_eq driver st ch r target dur steps hch]
  exact ⟨rfl, foldRange_calls_len driver ch r hch _ steps hin st,
    foldRange_positions driver ch r hch _ steps hin st⟩

/-- C7 witness: every hardware write raising (oracle `drvFail`) still lets
the ramp run its 20 steps to completion, report success, attempt 20 driver
calls, and leave the tracked position at the last accepted value (here:
untouched, since nothing was accepted). -/
theorem C7_witness :
    (smooth_move drvFail initSt 6 90 1 20).1 = true ∧
    (smooth_move drvFail initSt 6 90 1 20).2.calls.length = initSt.calls.length + 20 ∧
    (((smooth_move drvFail initSt 6 90 1 20).2.positions 6 = initSt.positions 6 ∧
        ∀ i, i < 20 →
          drvFail 6 (stepCommand initSt 6 ⟨0, 180, 150, "Arm Right"⟩ 90 20 i) = false) ∨
      (∃ i, i < 20 ∧ drvFail 6 (stepCommand initSt 6 ⟨0, 180, 150, "Arm Right"⟩ 90 20 i) = true ∧
        (smooth_move drvFail initSt 6 90 1 20).2.positions 6 =
          stepCommand initSt 6 ⟨0, 180, 150, "Arm Right"⟩ 90 20 i ∧
        ∀ j, i < j → j < 20 →
          drvFail 6 (stepCommand initSt 6 ⟨0, 180, 150, "Arm Right"⟩ 90 20 j) = false)) := by
  refine C7_driver_failure_continues drvFail initSt 6 ⟨0, 180, 150, "Arm Right"⟩ 90 1 20
    rfl ?_ ?_
  · show ((0 : ℤ) : ℚ) ≤ ((150 : ℤ) : ℚ)
    norm_num
  · show ((150 : ℤ) : ℚ) ≤ ((180 : ℤ) : ℚ)
    norm_num

/-- C6: `move_servo` (the direct, non-interpolated placement) rejects an
unknown channel, and rejects an out-of-range angle carrying the channel's
bounds in the result, with no driver call issued and the whole state (in
particular the position table) unchanged — it rejects rather than clamps. -/
theorem C6_setImmediate_rejects (driver : ℕ → ℚ → Bool) (st : EngineSt) (ch : ℕ) (a : ℚ) :
    (SERVO_RANGES ch = none → move_servo driver st ch a = (.invalidChannel, st)) ∧
    (∀ r, SERVO_RANGES ch = some r → ¬((r.minAngle : ℚ) ≤ a ∧ a ≤ (r.maxAngle : ℚ)) →
      move_servo driver st ch a = (.outOfRange r.minAngle r.maxAngle, st)) :=
  ⟨fun h => move_servo_invalid driver st ch a h,
   fun r h hout => move_servo_reject driver st ch a r h hout⟩

/-- C6 witness: the spec's end-to-end scenario: channel 99 is unknown;
`move_servo(6, 200)` returns out-of-range with bounds 0 and 180 and leaves
the state (position table and call log) untouched. -/
theorem C6_witness :
    move_servo drvOk initSt 99 50 = (.invalidChannel, initSt) ∧
    move_servo drvOk initSt 6 200 = (.outOfRange 0 180, initSt) := by
  constructor
  · exact (C6_setImmediate_rejects drvOk initSt 99 50).1 rfl
  · exact (C6_setImmediate_rejects drvOk initSt 6 200).2 ⟨0, 180, 150, "Arm Right"⟩ rfl
      (by norm_num)

/-!  Exclusivity scheduler.  Every routine of `ServoController` (wave_dance,
nod_dance, curious_look, excited_dance, full_dance, custom_dance) has the
same skeleton around the `is_dancing` flag:

    if self.is_dancing: return False, busy-message   (no queueing)
    self.is_dancing = True                           (no await in between)
    try: body  except: return False, msg  finally: self.is_dancing = False

and `stop_dance` (lines 445-449) just executes `self.is_dancing = False`,
without terminating the running routine body (no step of `smooth_move`
reads the flag).  Under asyncio's cooperative scheduling the guard and the
assignment run atomically, so the flag dynamics is the labelled transition
system below; `alive` instruments the number of routine bodies currently
executing (the spec's overlapping-invocations probe). -/

/-- Scheduler events: a start attempt that finds the flag clear and admits
the routine, a start attempt that finds the flag set and returns Busy, the
end of a routine body (`ok` records whether it completed or its `except`
branch ran; the `finally` clause is identical for both), and `stop_dance`. -/
inductive SchedEv where
  | startOk : SchedEv
  | startBusy : SchedEv
  | finish (ok : Bool) : SchedEv
  | stop : SchedEv
deriving DecidableEq

/-- Scheduler state: the `is_dancing` flag plus the number of routine
bodies currently executing. -/
structure SchedState where
  is_dancing : Bool
  alive : ℕ
deriving DecidableEq

/-- One scheduler transition; `none` when the event is not enabled in the
state (a successful start requires the flag clear, a Busy return requires
it set, a finish requires a live body).  `stop` clears the flag but leaves
`alive` untouched: `stop_dance` does not terminate the routine body. -/
def schedStep (s : SchedState) : SchedEv → Option SchedState
  | .startOk => if s.is_dancing then none else some ⟨true, s.alive + 1⟩
  | .startBusy => if s.is_dancing then some s else none
  | .finish _ => if s.alive = 0 then none else some ⟨false, s.alive - 1⟩
  | .stop => some ⟨false, s.alive⟩

/-- `Reach s es t`: the event sequence `es` is enabled from `s` and ends in
`t`. -/
inductive Reach : SchedState → List SchedEv → SchedState → Prop where
  | nil (s : SchedState) : Reach s [] s
  | cons {s s' t : SchedState} {e : SchedEv} {es : List SchedEv} :
      schedStep s e = some s' → Reach s' es t → Reach s (e :: es) t

/-- The scheduler's initial state: flag clear, no routine running. -/
def schedInit : SchedState := ⟨false, 0⟩

/-- Invariant of stop-free runs: the flag is set exactly while one routine
body is alive, and at most one body is ever alive. -/
def SchedInv (s : SchedState) : Prop := (s.is_dancing = true ↔ s.alive = 1) ∧ s.alive ≤ 1

lemma schedStep_preserves {s s' : SchedState} {e : SchedEv} (hne : e ≠ SchedEv.stop)
    (h : schedStep s e = some s') (hI : SchedInv s) : SchedInv s' := by
  cases e with
  | startOk =>
    by_cases hd : s.is_dancing <;> simp [schedStep, hd] at h
    obtain ⟨a, b⟩ := hI
    have : ¬s.alive = 1 := fun hc => by simp [a.mpr hc] at hd
    subst h
    constructor <;> simp <;> omega
  | startBusy =>
    by_cases hd : s.is_dancing <;> simp [schedStep, hd] at h
    subst h
    exact hI
  | finish ok =>
    by_cases ha : s.alive = 0 <;> simp [schedStep, ha] at h
    obtain ⟨a, b⟩ := hI
    subst h
    constructor <;> simp <;> omega
  | stop => exact absurd rfl hne

lemma reach_inv {s t : SchedState} {es : List SchedEv} (hI : SchedInv s)
    (hns : SchedEv.stop ∉ es) (h : Reach s es t) : SchedInv t := by
  induction h with
  | nil => exact hI
  | cons hstep _ ih =>
    rename_i s₀ s' t₀ e es₀ _
    have hne : e ≠ SchedEv.stop := fun hc => hns (by rw [hc]; exact List.mem_cons_self _ _)
    exact ih (schedStep_preserves hne hstep hI) (fun hc => hns (List.mem_cons_of_mem _ hc))

lemma schedInit_inv : SchedInv schedInit := by
  constructor <;> simp [schedInit]

/-- C1 counterexample: start a routine, call stop_dance (which only clears
the flag; the routine body has no cancellation poll and keeps running),
then start another routine: the second start is admitted and two routine
bodies are alive at once — their interpolation steps interleave driver
calls from two different invocations. -/
theorem C1_counterexample :
    Reach schedInit [SchedEv.startOk, SchedEv.stop, SchedEv.startOk] ⟨true, 2⟩ := by
  have h1 : schedStep schedInit SchedEv.startOk = some ⟨true, 1⟩ := by decide
  have h2 : schedStep ⟨true, 1⟩ SchedEv.stop = some ⟨false, 1⟩ := by decide
  have h3 : schedStep ⟨false, 1⟩ SchedEv.startOk = some ⟨true, 2⟩ := by decide
  exact Reach.cons h1 (Reach.cons h2 (Reach.cons h3 (Reach.nil _)))

/-- C1 (amended): a routine start attempted while the busy flag is set
returns Busy immediately with the state unchanged (nothing queued, nothing
blocked) and an admitting start is disabled; and in every run from the
initial state in which stop_dance is never invoked, at most one routine
body is ever alive.  The unconditional no-overlap part of the original
claim fails once stop_dance is allowed mid-routine (see the
counterexample). -/
theorem C1_busy_rejected_and_exclusive :
    (∀ s : SchedState, s.is_dancing = true →
        schedStep s SchedEv.startBusy = some s ∧ schedStep s SchedEv.startOk = none) ∧
    (∀ (es : List SchedEv) (t : SchedState), SchedEv.stop ∉ es →
        Reach schedInit es t → t.alive ≤ 1) := by
  constructor
  · intro s hs
    constructor <;> simp [schedStep, hs]
  · intro es t hns hr
    exact (reach_inv schedInit_inv hns hr).2

/-- C1 witness: in the busy state with one live routine, a start returns
Busy leaving the state unchanged; after one stop-free start from the
initial state, at most one routine body is alive. -/
theorem C1_witness :
    (schedStep ⟨true, 1⟩ SchedEv.startBusy = some ⟨true, 1⟩ ∧
      schedStep ⟨true, 1⟩ SchedEv.startOk = none) ∧
    (⟨true, 1⟩ : SchedState).alive ≤ 1 := by
  have h1 : schedStep schedInit SchedEv.startOk = some ⟨true, 1⟩ := by decide
  exact ⟨C1_busy_rejected_and_exclusive.1 ⟨true, 1⟩ rfl,
    C1_busy_rejected_and_exclusive.2 [SchedEv.startOk] ⟨true, 1⟩ (by decide)
      (Reach.cons h1 (Reach.nil _))⟩

/-- C5 counterexample: after a start followed by stop_dance, the busy flag
is already clear while the started routine body is still executing (alive
= 1), refuting the flag is true exactly while a routine is executing as
stated. -/
theorem C5_counterexample :
    Reach schedInit [SchedEv.startOk, SchedEv.stop] ⟨false, 1⟩ ∧
    (⟨false, 1⟩ : SchedState).is_dancing = false ∧ (⟨false, 1⟩ : SchedState).alive = 1 := by
  have h1 : schedStep schedInit SchedEv.startOk = some ⟨true, 1⟩ := by decide
  have h2 : schedStep ⟨true, 1⟩ SchedEv.stop = some ⟨false, 1⟩ := by decide
  exact ⟨Reach.cons h1 (Reach.cons h2 (Reach.nil _)), rfl, rfl⟩

/-- C5 (amended): the finally clause clears the busy flag on both routine
exit paths (normal completion and caught internal error — `finish true` and
`finish false` act identically), stop_dance clears it too, so no
terminating routine leaves the engine busy; in runs without stop_dance the
flag is set exactly while a routine body is executing.  After a stop_dance
the flag can be clear while the routine still runs (see the
counterexample), so the exact-iff needs the stop-free proviso. -/
theorem C5_flag_cleared_on_every_exit :
    (∀ (s s' : SchedState) (ok : Bool), schedStep s (SchedEv.finish ok) = some s' →
        s'.is_dancing = false) ∧
    (∀ s s' : SchedState, schedStep s SchedEv.stop = some s' → s'.is_dancing = false) ∧
    (∀ (es : List SchedEv) (t : SchedState), SchedEv.stop ∉ es →
        Reach schedInit es t → (t.is_dancing = true ↔ t.alive = 1)) := by
  refine ⟨?_, ?_, ?_⟩
  · intro s s' ok h
    unfold schedStep at h
    by_cases ha : s.alive = 0
    · rw [if_pos ha] at h
      exact Option.noConfusion h
    · rw [if_neg ha] at h
      cases h
      rfl
  · intro s s' h
    unfold schedStep at h
    cases h
    rfl
  · intro es t hns hr
    exact (reach_inv schedInit_inv hns hr).1

/-- C5 witness: a successful finish and a failing finish from the busy
state both clear the flag, stop clears it, and after one stop-free start
the flag-iff-running equivalence holds. -/
theorem C5_witness :
    (⟨false, 0⟩ : SchedState).is_dancing = false ∧
    (⟨false, 3⟩ : SchedState).is_dancing = false ∧
    ((⟨true, 1⟩ : SchedState).is_dancing = true ↔ (⟨true, 1⟩ : SchedState).alive = 1) := by
  have h1 : schedStep schedInit SchedEv.startOk = some ⟨true, 1⟩ := by decide
  exact ⟨C5_flag_cleared_on_every_exit.1 ⟨true, 1⟩ ⟨false, 0⟩ false (by decide),
    C5_flag_cleared_on_every_exit.2.1 ⟨true, 3⟩ ⟨false, 3⟩ (by decide),
    C5_flag_cleared_on_every_exit.2.2 [SchedEv.startOk] ⟨true, 1⟩ (by decide)
      (Reach.cons h1 (Reach.nil _))⟩

/-- C4: the interpolation primitive polls no cancellation signal:
`smooth_move` (lines 112-129) never reads `is_dancing` — its loop state
does not even contain the flag — so once `stop_dance` has cleared the flag
mid-ramp the loop still issues every remaining driver call and returns
plain success; no Cancelled result exists.  Concretely, a 20-step ramp on
channel 0 towards 140 issues all 20 driver calls and reports `true`, which
is what happens after a stop request just as without one. -/
theorem C4_no_cancellation_poll :
    (smooth_move drvOk initSt 0 140 1 20).1 = true ∧
    (smooth_move drvOk initSt 0 140 1 20).2.calls.length = 20 := by
  have hin : ∀ i, i < 20 →
      (((⟨40, 140, 90, "Head Rotation"⟩ : ChannelSpec).minAngle : ℤ) : ℚ) ≤
        stepCommand initSt 0 ⟨40, 140, 90, "Head Rotation"⟩ 140 20 i ∧
      stepCommand initSt 0 ⟨40, 140, 90, "Head Rotation"⟩ 140 20 i ≤
        (((⟨40, 140, 90, "Head Rotation"⟩ : ChannelSpec).maxAngle : ℤ) : ℚ) := by
    intro i hi
    refine stepCommand_mem initSt 0 ⟨40, 140, 90, "Head Rotation"⟩ 140 20 i ?_ ?_ ?_ hi
    · show ((40 : ℤ) : ℚ) ≤ ((140 : ℤ) : ℚ)
      norm_num
    · show ((40 : ℤ) : ℚ) ≤ ((90 : ℤ) : ℚ)
      norm_num
    · show ((90 : ℤ) : ℚ) ≤ ((140 : ℤ) : ℚ)
      norm_num
  rw [smooth_move_eq drvOk initSt 0 ⟨40, 140, 90, "Head Rotation"⟩ 140 1 20 rfl]
  refine ⟨rfl, ?_⟩
  have h := foldRange_calls_len drvOk 0 ⟨40, 140, 90, "Head Rotation"⟩ rfl
    (stepCommand initSt 0 ⟨40, 140, 90, "Head Rotation"⟩ 140 20) 20 hin initSt
  simpa [initSt] using h

/-- One entry of the movements array given to `custom_dance`: the
`'servo'` and `'angle'` keys may be absent (`move.get(...)` returns None),
`'duration'` is optional with `move.get('duration', 0.5)`. -/
structure Movement where
  servo : Option ℕ
  angle : Option ℚ
  duration : Option ℚ

/-- The body of the `for move in movements` loop of `custom_dance` (lines
426-434): skip entries missing servo or angle (`continue`), otherwise run
`smooth_move` with the entry's duration (default 0.5) and `smooth_move`'s
own default step count. -/
def customStep (driver : ℕ → ℚ → Bool) (s : EngineSt) (m : Movement) : EngineSt :=
  match m.servo, m.angle with
  | some servo, some angle => (smooth_move driver s servo angle (m.duration.getD (1/2))).2
  | _, _ => s

/-- `ServoController.custom_dance` (lines 417-443): Busy-guard on the
`is_dancing` flag, then the entries run strictly in order; the result
triple is (routine result, engine state, flag afterwards) — the `finally`
clause leaves the flag `false` on completion. -/
def custom_dance (driver : ℕ → ℚ → Bool) (st : EngineSt) (is_dancing : Bool)
    (movements : List Movement) : Bool × EngineSt × Bool :=
  if is_dancing then (false, st, is_dancing)
  else (true, movements.foldl (customStep driver) st, false)

/-- One member task of an `asyncio.gather(...)` group inside a built-in
routine: `self.smooth_move(ch, target, duration=...)`. -/
structure GroupMember where
  ch : ℕ
  target : ℚ
  duration : ℚ

/-- The effect of `await asyncio.gather(self.smooth_move(...), ...)` in
the built-in routines: every member interpolation runs to completion and
its result is collected into the list gather returns.  The members of each
group in the source target pairwise distinct channels, so the concurrent
interleaving of their steps is state-equivalent to running them in
sequence, which is how the joint effect is represented here. -/
def runGroup (driver : ℕ → ℚ → Bool) : EngineSt → List GroupMember →
    List Bool × EngineSt
  | st, [] => ([], st)
  | st, m :: ms =>
    let r := smooth_move driver st m.ch m.target m.duration
    let rest := runGroup driver r.2 ms
    (r.1 :: rest.1, rest.2)

/-- What a routine does with a gather group: the routine ignores the list
of member results (`await asyncio.gather(...)` as a bare statement) and
proceeds, so the group's contribution to the routine outcome is success
regardless of member results; member interpolations signal failure by
return value, never by raising, so gather propagates no exception. -/
def routineGroupResult (driver : ℕ → ℚ → Bool) (st : EngineSt)
    (members : List GroupMember) : Bool × EngineSt :=
  (true, (runGroup driver st members).2)

lemma customStep_skip (driver : ℕ → ℚ → Bool) (s : EngineSt) (bad : Movement)
    (hbad : bad.servo = none ∨ bad.angle = none) : customStep driver s bad = s := by
  unfold customStep
  rcases hbad with h | h
  · rw [h]
  · rw [h]
    cases bad.servo <;> rfl

/-- C8 counterexample: one well-formed custom entry with no explicit
duration yields a 20-step ramp — `custom_dance` passes no step count and
`smooth_move`'s default is 20, not the claimed 10 — so 20 driver calls are
attempted, not 10. -/
theorem C8_counterexample :
    (custom_dance drvOk initSt false [⟨some 0, some 100, none⟩]).2.1.calls.length = 20 ∧
    ¬((custom_dance drvOk initSt false [⟨some 0, some 100, none⟩]).2.1.calls.length = 10) := by
  have hin : ∀ i, i < 20 →
      (((⟨40, 140, 90, "Head Rotation"⟩ : ChannelSpec).minAngle : ℤ) : ℚ) ≤
        stepCommand initSt 0 ⟨40, 140, 90, "Head Rotation"⟩ 100 20 i ∧
      stepCommand initSt 0 ⟨40, 140, 90, "Head Rotation"⟩ 100 20 i ≤
        (((⟨40, 140, 90, "Head Rotation"⟩ : ChannelSpec).maxAngle : ℤ) : ℚ) := by
    intro i hi
    refine stepCommand_mem initSt 0 ⟨40, 140, 90, "Head Rotation"⟩ 100 20 i ?_ ?_ ?_ hi
    · show ((40 : ℤ) : ℚ) ≤ ((140 : ℤ) : ℚ)
      norm_num
    · show ((40 : ℤ) : ℚ) ≤ ((90 : ℤ) : ℚ)
      norm_num
    · show ((90 : ℤ) : ℚ) ≤ ((140 : ℤ) : ℚ)
      norm_num
  have hstate : (custom_dance drvOk initSt false [⟨some 0, some 100, none⟩]).2.1 =
      (smooth_move drvOk initSt 0 100 (1/2) 20).2 := rfl
  have hlen : (smooth_move drvOk initSt 0 100 (1/2) 20).2.calls.length = 20 := by
    rw [smooth_move_eq drvOk initSt 0 ⟨40, 140, 90, "Head Rotation"⟩ 100 (1/2) 20 rfl]
    have h := foldRange_calls_len drvOk 0 ⟨40, 140, 90, "Head Rotation"⟩ rfl
      (stepCommand initSt 0 ⟨40, 140, 90, "Head Rotation"⟩ 100 20) 20 hin initSt
    simpa [initSt] using h
  rw [hstate, hlen]
  exact ⟨rfl, by omega⟩

/-- C8 (amended): entries missing the servo or the angle are silently
skipped without aborting the remaining entries, the well-formed entries
execute strictly one after another in the given order (each entry's ramp
starts from the state the previous entry left), and the per-entry defaults
are duration = 0.5 seconds and step count = 20 — the claim's default of 10
steps does not match `smooth_move`'s default of 20. -/
theorem C8_custom_skips_and_sequences (driver : ℕ → ℚ → Bool) (st : EngineSt)
    (pre post : List Movement) (bad : Movement) (c : ℕ) (a : ℚ) (rest : List Movement)
    (hbad : bad.servo = none ∨ bad.angle = none) :
    custom_dance driver st false (pre ++ bad :: post) =
      custom_dance driver st false (pre ++ post) ∧
    custom_dance driver st false (⟨some c, some a, none⟩ :: rest) =
      custom_dance driver ((smooth_move driver st c a (1/2) 20).2) false rest := by
  constructor
  · unfold custom_dance
    rw [if_neg (by simp), if_neg (by simp), List.foldl_append, List.foldl_append,
      List.foldl_cons, customStep_skip driver _ bad hbad]
  · rfl

/-- C8 witness: a malformed entry (servo missing) in front of a valid one
is skipped, and the valid entry with no duration runs first as a
`smooth_move` with duration 0.5 and 20 steps, followed by the rest. -/
theorem C8_witness :
    custom_dance drvOk initSt false [⟨none, some 50, none⟩, ⟨some 0, some 100, none⟩] =
      custom_dance drvOk initSt false [⟨some 0, some 100, none⟩] ∧
    custom_dance drvOk initSt false [⟨some 0, some 100, none⟩] =
      custom_dance drvOk ((smooth_move drvOk initSt 0 100 (1/2) 20).2) false [] :=
  C8_custom_skips_and_sequences drvOk initSt [] [⟨some 0, some 100, none⟩]
    ⟨none, some 50, none⟩ 0 100 [] (Or.inl rfl)

/-- C9 counterexample: a gather group containing a failing member
interpolation (unknown channel 99 — `smooth_move` returns `False`) yields
member results `[false]`, yet the routine-level outcome of awaiting the
group is success: the group does not return the first member error, the
results are discarded. -/
theorem C9_counterexample :
    (runGroup drvOk initSt [⟨99, 100, 1⟩]).1 = [false] ∧
    (routineGroupResult drvOk initSt [⟨99, 100, 1⟩]).1 = true :=
  ⟨rfl, rfl⟩

/-- C9 (amended): awaiting a gather group runs every member to completion
— one result per member, and the members after a failing head still
execute, from the head's final state (no short-circuit cancellation of
siblings) — but the member results are discarded: the routine-level
outcome of the group is success regardless of member failures, rather
than the first error. -/
theorem C9_group_waits_but_discards_errors (driver : ℕ → ℚ → Bool) (st : EngineSt)
    (members : List GroupMember) (m : GroupMember) (ms : List GroupMember) :
    (runGroup driver st members).1.length = members.length ∧
    (routineGroupResult driver st members).1 = true ∧
    runGroup driver st (m :: ms) =
      ((smooth_move driver st m.ch m.target m.duration).1 ::
          (runGroup driver (smooth_move driver st m.ch m.target m.duration).2 ms).1,
        (runGroup driver (smooth_move driver st m.ch m.target m.duration).2 ms).2) := by
  refine ⟨?_, rfl, rfl⟩
  induction members generalizing st with
  | nil => rfl
  | cons x xs ih => simp [runGroup, ih]

/-- The implicit position-table invariant: every registry channel's
tracked position lies within that channel's safety range. -/
def EngineInv (st : EngineSt) : Prop :=
  ∀ ch r, SERVO_RANGES ch = some r →
    (r.minAngle : ℚ) ≤ st.positions ch ∧ st.positions ch ≤ (r.maxAngle : ℚ)

/-- The operations through which the position table is ever written: a
direct `move_servo` (control-surface `setImmediate`) or a `smooth_move`
ramp (the routines only move servos through `smooth_move`). -/
inductive EngineOp where
  | move (ch : ℕ) (a : ℚ) : EngineOp
  | smooth (ch : ℕ) (target dur : ℚ) (steps : ℕ) : EngineOp

/-- Apply one engine operation to the state. -/
def applyOp (driver : ℕ → ℚ → Bool) (st : EngineSt) : EngineOp → EngineSt
  | .move ch a => (move_servo driver st ch a).2
  | .smooth ch target dur steps => (smooth_move driver st ch target dur steps).2

/-- Run a sequence of engine operations from a state. -/
def runOps (driver : ℕ → ℚ → Bool) (st : EngineSt) (ops : List EngineOp) : EngineSt :=
  ops.foldl (applyOp driver) st

lemma move_servo_inv (driver : ℕ → ℚ → Bool) (st : EngineSt) (ch : ℕ) (a : ℚ)
    (hI : EngineInv st) : EngineInv (move_servo driver st ch a).2 := by
  cases hr : SERVO_RANGES ch with
  | none => rw [move_servo_invalid driver st ch a hr]; exact hI
  | some r =>
    by_cases hin : (r.minAngle : ℚ) ≤ a ∧ a ≤ (r.maxAngle : ℚ)
    · have ha := move_servo_attempt driver st ch a r hr hin.1 hin.2
      rcases ha.2 with ⟨_, hpos⟩ | ⟨_, hpos⟩
      · intro ch' r' h'
        rw [hpos]
        by_cases he : ch' = ch
        · subst he
          rw [hr] at h'
          cases h'
          rw [Function.update_same]
          exact hin
        · rw [Function.update_noteq he]
          exact hI ch' r' h'
      · intro ch' r' h'
        rw [hpos]
        exact hI ch' r' h'
    · rw [move_servo_reject driver st ch a r hr hin]
      exact hI

lemma foldRange_inv (driver : ℕ → ℚ → Bool) (ch : ℕ) (cmd : ℕ → ℚ) (l : List ℕ) :
    ∀ st : EngineSt, EngineInv st →
      EngineInv (l.foldl (fun s i => (move_servo driver s ch (cmd i)).2) st) := by
  induction l with
  | nil => intro st hI; exact hI
  | cons i l ih => intro st hI; exact ih _ (move_servo_inv driver st ch (cmd i) hI)

lemma smooth_move_inv (driver : ℕ → ℚ → Bool) (st : EngineSt) (ch : ℕ)
    (target dur : ℚ) (steps : ℕ) (hI : EngineInv st) :
    EngineInv (smooth_move driver st ch target dur steps).2 := by
  cases hr : SERVO_RANGES ch with
  | none => rw [smooth_move_none driver st ch target dur steps hr]; exact hI
  | some r =>
    rw [smooth_move_eq driver st ch r target dur steps hr]
    exact foldRange_inv driver ch _ _ st hI

lemma runOps_inv (driver : ℕ → ℚ → Bool) (ops : List EngineOp) :
    ∀ st : EngineSt, EngineInv st → EngineInv (runOps driver st ops) := by
  induction ops with
  | nil => intro st hI; exact hI
  | cons op ops ih =>
    intro st hI
    refine ih _ ?_
    cases op with
    | move ch a => exact move_servo_inv driver st ch a hI
    | smooth ch target dur steps => exact smooth_move_inv driver st ch target dur steps hI

lemma initSt_inv : EngineInv initSt := by
  intro ch r h
  have hw := ranges_wf ch r h
  have hp : initSt.positions ch = (r.defaultAngle : ℚ) := by
    simp only [initSt, h]
  rw [hp]
  constructor
  · exact_mod_cast hw.2.1
  · exact_mod_cast hw.2.2

/-- C10: the registry's defaults satisfy min ≤ default ≤ max, the position
table is seeded to those defaults (hence in range), and after any sequence
of operations that write it — direct `move_servo` placements and
`smooth_move` ramps, with any driver acceptance behaviour — every tracked
position still lies within its channel's range: `move_servo` writes only
range-checked angles, and the ramp writes only through `move_servo`. -/
theorem C10_positions_always_in_range (driver : ℕ → ℚ → Bool) (ops : List EngineOp) :
    (∀ ch r, SERVO_RANGES ch = some r →
        r.minAngle ≤ r.defaultAngle ∧ r.defaultAngle ≤ r.maxAngle) ∧
    EngineInv initSt ∧ EngineInv (runOps driver initSt ops) :=
  ⟨fun ch r h => (ranges_wf ch r h).2, initSt_inv,
    runOps_inv driver ops initSt initSt_inv⟩

/-- C10 witness: after an out-of-range direct placement attempt and a ramp
towards an out-of-range target, channel 6's tracked position is still
within 0-180. -/
theorem C10_witness :
    ((0 : ℤ) : ℚ) ≤ (runOps drvOk initSt [EngineOp.move 6 200,
        EngineOp.smooth 0 300 1 20]).positions 6 ∧
    (runOps drvOk initSt [EngineOp.move 6 200,
        EngineOp.smooth 0 300 1 20]).positions 6 ≤ ((180 : ℤ) : ℚ) :=
  (C10_positions_always_in_range drvOk [EngineOp.move 6 200,
    EngineOp.smooth 0 300 1 20]).2.2 6 ⟨0, 180, 150, "Arm Right"⟩ rfl
